import Mathlib

/-!
Shallow embedding of the low-memory-killer policy engine from
`drivers/staging/android/lowmemorykiller.c` (the `ENHANCED_LMK_ROUTINE`
configuration compiled in this tree, with `CONFIG_ZRAM_FOR_ANDROID`).

Pure functions mirror the C functions; the mutable module state is passed
explicitly.  Machine integers are modelled as `Int`/`Nat`; the one place
where C integer conversion changes observable behaviour — the
`int < size_t` comparisons in the threshold scan — is modelled with an
explicit conversion to the 32-bit unsigned range (`u32`).
-/

/-- `OOM_SCORE_ADJ_MAX` from `include/linux/oom.h`. -/
def OOM_SCORE_ADJ_MAX : Int := 1000

/-- `OOM_ADJUST_MAX` from `include/linux/oom.h`. -/
def OOM_ADJUST_MAX : Int := 15

/-- `LOWMEM_DEATHPENDING_DEPTH` (line 103): capacity of the victim pool. -/
def LOWMEM_DEATHPENDING_DEPTH : Nat := 3

/-- Timer ticks per second on this (ARM msm) kernel configuration. -/
def HZ : Nat := 100

/-- C conversion of a signed `int` value to the 32-bit unsigned `size_t`
domain, as performed by the usual arithmetic conversions in the
`int < size_t` comparisons of lines 284-285. -/
def u32 (x : Int) : Nat := (x % 4294967296).toNat

/-- The tunable module parameters read by `lowmem_shrink`
(lines 118-149, 765-791). -/
structure LMKConfig where
  lowmem_adj : List Int
  lowmem_adj_size : Nat
  lowmem_minfree : List Nat
  lowmem_minfree_size : Nat
  lowmem_fork_boost_minfree : List Nat
  lowmem_fork_boost : Bool
  lowmem_only_kswapd_sleep : Bool

/-- `array_size` computation of lines 234, 278-281:
`ARRAY_SIZE(lowmem_adj) = 6`, clamped by `lowmem_adj_size` and
`lowmem_minfree_size`. -/
def arraySize (cfg : LMKConfig) : Nat :=
  let a0 := 6
  let a1 := if cfg.lowmem_adj_size < a0 then cfg.lowmem_adj_size else a0
  if cfg.lowmem_minfree_size < a1 then cfg.lowmem_minfree_size else a1

/-- The global memory counters sampled at lines 252-267 and 296-299. -/
structure MemInput where
  nr_free : Int
  nr_file : Int
  nr_shmem : Int
  nr_mlock : Int
  total_swapcache : Int
  nr_active_anon : Int
  nr_active_file : Int
  nr_inactive_anon : Int
  nr_inactive_file : Int
  reserved_free : Int

/-- `other_free` (line 261). -/
def otherFree (mem : MemInput) : Int := mem.nr_free

/-- `other_file` (lines 262-266): file pages minus shmem, mlocked and
swap-cache pages. -/
def otherFile (mem : MemInput) : Int :=
  mem.nr_file - mem.nr_shmem - mem.nr_mlock - mem.total_swapcache

/-- `rem` as initialised at lines 296-299: the sum of the four global
active/inactive LRU counters. -/
def remPages (mem : MemInput) : Int :=
  mem.nr_active_anon + mem.nr_active_file + mem.nr_inactive_anon +
    mem.nr_inactive_file

/-- The mutable module state touched by `lowmem_shrink`:
`lowmem_deathpending_timeout` (line 145), `lowmem_fork_boost_timeout`
(line 146), `s_reclaim.lmk_running` (line 76) and `lmk_count` (line 107). -/
structure ScanState where
  deathpending_timeout : Nat
  fork_boost_timeout : Nat
  lmk_running : Nat
  lmk_count : Nat

/-- Fork-boost window test of lines 269-270: `lowmem_fork_boost` set and
`time_before_eq(jiffies, lowmem_fork_boost_timeout)`. -/
def forkBoostActive (cfg : LMKConfig) (jiffies : Nat) (st : ScanState) : Bool :=
  cfg.lowmem_fork_boost && decide (jiffies ≤ st.fork_boost_timeout)

/-- The `min_array[i]` value used in the scan of lines 283-290: when the
boost window is active, `minfree_tmp[i] = lowmem_minfree[i] +
lowmem_fork_boost_minfree[i]` computed in `size_t` arithmetic
(lines 271-272); otherwise `lowmem_minfree[i]` directly (line 276). -/
def effMinfree (cfg : LMKConfig) (boosted : Bool) (i : Nat) : Nat :=
  if boosted then
    (cfg.lowmem_minfree.getD i 0 + cfg.lowmem_fork_boost_minfree.getD i 0) %
      4294967296
  else cfg.lowmem_minfree.getD i 0

/-- The loop condition of lines 284-285:
`(other_free - reserved_free) < min_array[i] && other_file < min_array[i]`,
an `int < size_t` comparison, hence evaluated after conversion of the left
operands to the unsigned 32-bit range. -/
def tierCond (cfg : LMKConfig) (mem : MemInput) (boosted : Bool) (i : Nat) :
    Bool :=
  decide (u32 (otherFree mem - mem.reserved_free) < effMinfree cfg boosted i) &&
    decide (u32 (otherFile mem) < effMinfree cfg boosted i)

/-- The `for (i = 0; i < array_size; i++) { if (cond) break; }` scan of
lines 283-290, returning the index of the first entry satisfying `cond`. -/
def scanFrom (cond : Nat → Bool) : Nat → Nat → Option Nat
  | _, 0 => none
  | i, fuel + 1 => if cond i then some i else scanFrom cond (i + 1) fuel

/-- Index of the first threshold entry crossed (lines 283-290). -/
def crossIdx (cfg : LMKConfig) (mem : MemInput) (boosted : Bool) : Option Nat :=
  scanFrom (tierCond cfg mem boosted) 0 (arraySize cfg)

/-- The resulting `min_score_adj`: `lowmem_adj[i]` of the first crossed
entry, or its initial value `OOM_SCORE_ADJ_MAX + 1` (line 223) when no
entry is crossed. -/
def lookupMinScoreAdj (cfg : LMKConfig) (mem : MemInput) (boosted : Bool) :
    Int :=
  match crossIdx cfg mem boosted with
  | some i => cfg.lowmem_adj.getD i 0
  | none => OOM_SCORE_ADJ_MAX + 1

/-- The victim pool of the `ENHANCED_LMK_ROUTINE`: the parallel arrays
`selected[]`, `selected_tasksize[]`, `selected_oom_score_adj[]` together
with `all_selected_oom` and `max_selected_oom_idx` (lines 216, 225-228).
`π` is the type of the process reference held in a slot. -/
structure LMKSel (π : Type) where
  selected : List (Option π)
  selSize : List Int
  selAdj : List Int
  allSel : Nat
  maxIdx : Nat

/-- The pool at loop entry: `selected[] = {NULL,}`, sizes zeroed, and every
`selected_oom_score_adj[i]` set to `min_score_adj` (lines 311-312). -/
def initSel (π : Type) (minAdj : Int) : LMKSel π :=
  ⟨[none, none, none], [0, 0, 0], [minAdj, minAdj, minAdj], 0, 0⟩

/-- The empty-slot search of lines 365-371: first index `i` with
`selected[i] == NULL`. -/
def firstNoneAux {π : Type} : List (Option π) → Nat → Option Nat
  | [], _ => none
  | none :: _, i => some i
  | some _ :: t, i => firstNoneAux t (i + 1)

def firstNone {π : Type} (l : List (Option π)) : Option Nat := firstNoneAux l 0

/-- One iteration of the weakest-slot re-scan (lines 388-392): move to
index `i` when slot `i` has a strictly lower `oom_score_adj`, or an equal
`oom_score_adj` and a strictly smaller size, than the current slot `m`. -/
def argminStep (adjs sizes : List Int) (m i : Nat) : Nat :=
  if adjs.getD i 0 < adjs.getD m 0 then i
  else if adjs.getD i 0 = adjs.getD m 0 ∧ sizes.getD i 0 < sizes.getD m 0 then i
  else m

/-- The weakest-slot re-scan of lines 387-393, starting from the slot just
written. -/
def argminIdx (adjs sizes : List Int) (start : Nat) : Nat :=
  (List.range LOWMEM_DEATHPENDING_DEPTH).foldl (argminStep adjs sizes) start

/-- The slot decision of lines 363-376: while the pool is not full, the
first empty slot; once full, the weakest slot `max_selected_oom_idx` — but
only when the candidate is strictly better than it (higher
`oom_score_adj`, or equal with a strictly larger size); otherwise no slot
(`is_exist_oom_task` stays 0). -/
def selSlot {π : Type} (st : LMKSel π) (adj sz : Int) : Option Nat :=
  if st.allSel < LOWMEM_DEATHPENDING_DEPTH then firstNone st.selected
  else if st.selAdj.getD st.maxIdx 0 < adj ∨
      (st.selAdj.getD st.maxIdx 0 = adj ∧ st.selSize.getD st.maxIdx 0 < sz)
    then some st.maxIdx
  else none

/-- The insertion of lines 378-394 at slot `idx`: write the three parallel
arrays, bump `all_selected_oom` while the pool is filling, and recompute
the weakest slot when the pool is (or has just become) full. -/
def selInsert {π : Type} (st : LMKSel π) (x : π) (adj sz : Int) (idx : Nat) :
    LMKSel π :=
  let selected := st.selected.set idx (some x)
  let selSize := st.selSize.set idx sz
  let selAdj := st.selAdj.set idx adj
  let allSel :=
    if st.allSel < LOWMEM_DEATHPENDING_DEPTH then st.allSel + 1 else st.allSel
  let maxIdx :=
    if allSel = LOWMEM_DEATHPENDING_DEPTH then argminIdx selAdj selSize idx
    else idx
  ⟨selected, selSize, selAdj, allSel, maxIdx⟩

/-- One candidate considered against the pool: the body of lines 363-399. -/
def selStep {π : Type} (st : LMKSel π) (x : π) (adj sz : Int) : LMKSel π :=
  match selSlot st adj sz with
  | none => st
  | some idx => selInsert st x adj sz idx

/-- The per-process view used by the scan loop: `PF_KTHREAD` (line 329),
`TIF_MEMDIE` on any thread as tested by `test_task_flag` (line 333),
whether `find_lock_task_mm` succeeds (line 349), `oom_score_adj`
(line 353) and the `get_mm_rss` task size (line 358). -/
structure Proc where
  pid : Nat
  kthread : Bool
  memdie : Bool
  has_mm : Bool
  oom_score_adj : Int
  rss : Int
deriving DecidableEq, Repr

/-- The `for_each_process` loop of lines 321-415.  Returns `none` when the
death-pending hysteresis abort of lines 332-346 fires, otherwise the final
pool. -/
def scanLoop (minAdj : Int) (jiffies deadline : Nat) :
    LMKSel Proc → List Proc → Option (LMKSel Proc)
  | st, [] => some st
  | st, p :: rest =>
    if p.kthread then scanLoop minAdj jiffies deadline st rest
    else if jiffies ≤ deadline ∧ p.memdie then none
    else if ¬p.has_mm then scanLoop minAdj jiffies deadline st rest
    else if p.oom_score_adj < minAdj then scanLoop minAdj jiffies deadline st rest
    else if p.rss ≤ 0 then scanLoop minAdj jiffies deadline st rest
    else scanLoop minAdj jiffies deadline (selStep st p p.oom_score_adj p.rss) rest

/-- Outcome of one `lowmem_shrink` invocation: the return value, the list
of processes signalled (in slot order, lines 418-433), the resulting
module state, whether the cooperative `msleep_interruptible` was executed,
and (instrumentation) whether `s_reclaim.lmk_running` was raised at
line 318. -/
structure ShrinkResult where
  ret : Int
  kills : List Proc
  state : ScanState
  slept : Bool
  setLmk : Bool

/-- The sleep guard of lines 245-247, 341-343:
`!(lowmem_only_kswapd_sleep && !current_is_kswapd())`. -/
def sleepCond (cfg : LMKConfig) (isKswapd : Bool) : Bool :=
  !(cfg.lowmem_only_kswapd_sleep && !isKswapd)

/-- The victims present in the pool, in slot order (kill loop, line 418). -/
def poolKills (sel : LMKSel Proc) : List Proc := sel.selected.filterMap id

/-- Total `selected_tasksize` of the occupied slots, subtracted from `rem`
by the kill loop (line 428). -/
def poolKillSize (sel : LMKSel Proc) : Int :=
  ((List.range LOWMEM_DEATHPENDING_DEPTH).map fun i =>
    match sel.selected.getD i none with
    | some _ => sel.selSize.getD i 0
    | none => 0).sum

/-- `lowmem_shrink` (lines 212-471).  `lockContended` is true when
`mutex_trylock(&scan_mutex)` would fail; `isKswapd` is
`current_is_kswapd()`. -/
def lowmem_shrink (cfg : LMKConfig) (mem : MemInput) (procs : List Proc)
    (jiffies : Nat) (nr_to_scan : Nat) (lockContended : Bool) (isKswapd : Bool)
    (st : ScanState) : ShrinkResult :=
  if 0 < nr_to_scan ∧ lockContended then
    ⟨0, [], st, sleepCond cfg isKswapd, false⟩
  else if nr_to_scan = 0 ∨
      lookupMinScoreAdj cfg mem (forkBoostActive cfg jiffies st) =
        OOM_SCORE_ADJ_MAX + 1 then
    ⟨remPages mem, [], st, false, false⟩
  else
    match scanLoop (lookupMinScoreAdj cfg mem (forkBoostActive cfg jiffies st))
        jiffies st.deathpending_timeout
        (initSel Proc
          (lookupMinScoreAdj cfg mem (forkBoostActive cfg jiffies st)))
        procs with
    | none =>
      ⟨0, [], { st with lmk_running := 0 }, sleepCond cfg isKswapd, true⟩
    | some sel =>
      ⟨remPages mem - poolKillSize sel, poolKills sel,
        { st with
          deathpending_timeout :=
            if (poolKills sel).isEmpty then st.deathpending_timeout
            else jiffies + HZ,
          lmk_running := 0,
          lmk_count := st.lmk_count + (poolKills sel).length },
        false, true⟩

/-- Inputs read by `could_cswap` (lines 474-517). -/
structure CswapEnv where
  hidden_cgroup_counter : Int
  need_to_reclaim : Int
  lmk_running : Int
  kswapd_thread_on : Int
  nr_swap_pages : Int
  minimum_freeswap_pages : Int
  has_kcompcached : Bool
  kcompcached_enable : Int
  cpu_idle : Bool
  idle_report : Int
  has_rtcc_daemon : Bool
  kcompcached_running : Int
  jiffies : Nat
  prev_jiffy : Nat
  minimum_interval_time : Nat

/-- Effects of one `could_cswap` call: whether `kcompcached` was woken,
whether `SIGUSR1` was sent to the rtcc daemon, and the updated state. -/
structure CswapResult where
  wake : Bool
  sig_rtcc : Bool
  need_to_reclaim : Int
  idle_report : Int
  kcompcached_running : Int
  hidden_cgroup_counter : Int
  prev_jiffy : Nat

/-- The "return without doing anything" outcome of `could_cswap`: no
wake-up, no signal, state unchanged. -/
def cswapKeep (e : CswapEnv) : CswapResult :=
  ⟨false, false, e.need_to_reclaim, e.idle_report, e.kcompcached_running,
    e.hidden_cgroup_counter, e.prev_jiffy⟩

/-- `could_cswap` (lines 474-517): the chain of early returns, then the
idle-CPU branch with the rtcc-daemon signal and the worker wake-up. -/
def could_cswap (e : CswapEnv) : CswapResult :=
  if e.hidden_cgroup_counter ≤ 0 ∧ e.need_to_reclaim ≠ 1 then cswapKeep e
  else if e.jiffies < e.prev_jiffy + e.minimum_interval_time then cswapKeep e
  else if e.lmk_running = 1 ∨ e.kswapd_thread_on = 1 then cswapKeep e
  else if e.nr_swap_pages < e.minimum_freeswap_pages then cswapKeep e
  else if ¬e.has_kcompcached then cswapKeep e
  else if e.kcompcached_enable = 0 then cswapKeep e
  else if e.cpu_idle then
    if e.idle_report = 1 ∧ e.hidden_cgroup_counter > 0 ∧ e.has_rtcc_daemon then
      { cswapKeep e with
        sig_rtcc := true
        hidden_cgroup_counter := e.hidden_cgroup_counter - 1
        idle_report := 0
        prev_jiffy := e.jiffies }
    else if e.need_to_reclaim ≠ 1 then { cswapKeep e with idle_report := 1 }
    else if e.kcompcached_running = 0 then
      { cswapKeep e with
        wake := true
        kcompcached_running := 1
        idle_report := 1
        prev_jiffy := e.jiffies }
    else cswapKeep e
  else cswapKeep e

/-- A zone as seen by `soft_reclaim` (lines 545-577): populated flag,
`all_unreclaimable`, and the reclaimed/scanned counts produced by
`mem_cgroup_soft_limit_reclaim` on it. -/
structure ZoneInput where
  populated : Bool
  all_unreclaimable : Bool
  soft_reclaimed : Nat
  soft_scanned : Nat

/-- The monotonic `s_reclaim` counters (lines 68-71). -/
structure ReclaimStats where
  nr_total_soft_reclaimed : Nat
  nr_total_soft_scanned : Nat
  nr_last_soft_reclaimed : Nat
  nr_last_soft_scanned : Nat

/-- `soft_reclaim` (lines 545-577): walk the zones, skipping unpopulated
and unreclaimable ones, accumulating counters, returning the total number
of reclaimed pages. -/
def soft_reclaim : List ZoneInput → ReclaimStats → Nat × ReclaimStats
  | [], s => (0, s)
  | z :: zs, s =>
    if ¬z.populated ∨ z.all_unreclaimable then soft_reclaim zs s
    else
      let s1 : ReclaimStats :=
        ⟨s.nr_total_soft_reclaimed + z.soft_reclaimed,
          s.nr_total_soft_scanned + z.soft_scanned,
          z.soft_reclaimed, z.soft_scanned⟩
      let r := soft_reclaim zs s1
      (z.soft_reclaimed + r.1, r.2)

/-- The atomic flags touched by one pass of the worker loop. -/
structure ReclaimFlags where
  need_to_reclaim : Int
  kcompcached_running : Int

/-- One pass of the `do_compcache` worker body (lines 584-594, excluding
freezer/stop handling): run `soft_reclaim`, clear `need_to_reclaim` via
`cancel_soft_reclaim` (lines 534-537) when fewer than
`minimun_reclaim_pages` pages were reclaimed, then clear
`kcompcached_running` before sleeping. -/
def do_compcache_pass (zones : List ZoneInput) (minimun_reclaim_pages : Nat)
    (stats : ReclaimStats) (fl : ReclaimFlags) :
    Nat × ReclaimStats × ReclaimFlags :=
  let r := soft_reclaim zones stats
  let fl1 :=
    if r.1 < minimun_reclaim_pages then { fl with need_to_reclaim := 0 }
    else fl
  (r.1, r.2, { fl1 with kcompcached_running := 0 })

/-- Adjacent-pairs ascending check on a list. -/
def ascChain {α : Type} (le : α → α → Bool) : List α → Bool
  | [] => true
  | [_] => true
  | a :: b :: t => le a b && ascChain le (b :: t)

/-- The pair of table parameters exposed to the configuration surface
(`adj` and `minfree`, lines 773-777). -/
structure LMKTables where
  adj : List Int
  minfree : List Nat

/-- Modelled from the spec: the validation performed by the configuration
boundary for the `adj`/`minfree` module parameters.  The store routine is
the kernel module-parameter machinery (`param_array_ops.set`), which is
part of this kernel tree but not under `src/`; per spec §6 ("ascending
order required; caller-supplied, validated for bounded length") and §7
("malformed threshold/boost tables (length mismatch, unsorted) are
rejected at the configuration boundary, prior state retained") a proposed
table pair is valid iff the two lists have equal length, at most 6 entries,
and each is ascending. -/
def tablesValid (t : LMKTables) : Prop :=
  t.adj.length = t.minfree.length ∧ t.adj.length ≤ 6 ∧
    ascChain (fun a b : Int => decide (a ≤ b)) t.adj = true ∧
    ascChain (fun a b : Nat => decide (a ≤ b)) t.minfree = true

instance (t : LMKTables) : Decidable (tablesValid t) := by
  unfold tablesValid
  infer_instance

/-- Modelled from the spec: the configuration boundary applies a proposed
table pair only when it is valid, otherwise the prior tables are retained
unchanged (spec §7(a)). -/
def reconfigureTables (cur proposed : LMKTables) : LMKTables :=
  if tablesValid proposed then proposed else cur

/-! ### The candidate ranking order used by the victim pool -/

/-- A candidate's rank data: `(oom_score_adj, tasksize)`. -/
abbrev Cand := Int × Int

/-- `rankGE a b`: candidate `a` ranks at least as high as `b` in the
(priority descending, then resident-size descending) order that the pool
of lines 363-399 maintains. -/
def rankGE (a b : Cand) : Prop := b.1 < a.1 ∨ (b.1 = a.1 ∧ b.2 ≤ a.2)

instance : DecidableRel rankGE := fun a b => by unfold rankGE; infer_instance

instance : IsTotal Cand rankGE := ⟨fun a b => by unfold rankGE; omega⟩

instance : IsTrans Cand rankGE :=
  ⟨fun a b c h1 h2 => by unfold rankGE at h1 h2 ⊢; omega⟩

instance : IsAntisymm Cand rankGE :=
  ⟨fun a b h1 h2 => by
    unfold rankGE at h1 h2
    exact Prod.ext (by omega) (by omega)⟩

/-- The `K = LOWMEM_DEATHPENDING_DEPTH` highest-ranked candidates of a
sequence: sort descending by rank, take the first `K`. -/
def topK (cs : List Cand) : List Cand :=
  (List.insertionSort rankGE cs).take LOWMEM_DEATHPENDING_DEPTH

/-- Functional specification of one pool step: insert into the sorted
pool, truncate to capacity. -/
def specStep (s : List Cand) (c : Cand) : List Cand :=
  (List.orderedInsert rankGE c s).take LOWMEM_DEATHPENDING_DEPTH

/-- Functional specification of the whole pool run. -/
def specRun (cs : List Cand) : List Cand := cs.foldl specStep []

theorem take_orderedInsert {α : Type} (r : α → α → Prop) [DecidableRel r]
    (a : α) :
    ∀ (s : List α) (k : Nat),
      (s.orderedInsert r a).take k = ((s.take k).orderedInsert r a).take k
  | [], k => by simp
  | b :: t, 0 => by simp
  | b :: t, k + 1 => by
    by_cases h : r a b
    · cases k with
      | zero => simp [List.orderedInsert, h]
      | succ m =>
        simp only [List.orderedInsert, List.take_succ_cons, if_pos h,
          List.take_take]
        rw [Nat.min_eq_left (Nat.le_succ m)]
    · simp only [List.orderedInsert, List.take_succ_cons, if_neg h]
      rw [take_orderedInsert r a t k]

theorem insertionSort_append_singleton (l : List Cand) (c : Cand) :
    List.insertionSort rankGE (l ++ [c]) =
      List.orderedInsert rankGE c (List.insertionSort rankGE l) := by
  refine List.eq_of_perm_of_sorted ?_ (List.sorted_insertionSort _ _)
    ((List.sorted_insertionSort rankGE l).orderedInsert c _)
  refine (List.perm_insertionSort _ _).trans ?_
  refine (List.perm_append_singleton c l).trans ?_
  exact ((List.perm_insertionSort rankGE l).symm.cons c).trans
    (List.perm_orderedInsert _ _ _).symm

theorem specRun_eq_topK (cs : List Cand) : specRun cs = topK cs := by
  induction cs using List.reverseRecOn with
  | nil => rfl
  | append_singleton l c ih =>
    rw [specRun, List.foldl_append]
    show specStep (specRun l) c = topK (l ++ [c])
    rw [ih]
    unfold topK specStep
    rw [insertionSort_append_singleton,
      take_orderedInsert rankGE c (List.insertionSort rankGE l)
        LOWMEM_DEATHPENDING_DEPTH]

theorem sorted_specRun (cs : List Cand) : List.Sorted rankGE (specRun cs) := by
  rw [specRun_eq_topK, topK]
  exact (List.sorted_insertionSort rankGE cs).sublist
    (List.take_sublist _ _)

theorem topK_perm_invariant {cs cs' : List Cand} (h : List.Perm cs cs') :
    topK cs = topK cs' := by
  unfold topK
  congr 1
  exact List.eq_of_perm_of_sorted
    ((List.perm_insertionSort rankGE cs).trans
      (h.trans (List.perm_insertionSort rankGE cs').symm))
    (List.sorted_insertionSort rankGE cs) (List.sorted_insertionSort rankGE cs')

theorem rankGE_refl (a : Cand) : rankGE a a := by unfold rankGE; omega

theorem rankGE_trans {a b c : Cand} (h1 : rankGE a b) (h2 : rankGE b c) :
    rankGE a c := by unfold rankGE at h1 h2 ⊢; omega

theorem argminStep_spec (adjs sizes : List Int) (m i : Nat) :
    (argminStep adjs sizes m i = m ∨ argminStep adjs sizes m i = i) ∧
      rankGE (adjs.getD m 0, sizes.getD m 0)
        (adjs.getD (argminStep adjs sizes m i) 0,
          sizes.getD (argminStep adjs sizes m i) 0) ∧
      rankGE (adjs.getD i 0, sizes.getD i 0)
        (adjs.getD (argminStep adjs sizes m i) 0,
          sizes.getD (argminStep adjs sizes m i) 0) := by
  unfold argminStep
  split_ifs with h1 h2 <;>
    refine ⟨by tauto, ?_, ?_⟩ <;> unfold rankGE <;> omega

theorem argminIdx_spec (adjs sizes : List Int) (start : Nat) (hst : start < 3) :
    argminIdx adjs sizes start < 3 ∧
      ∀ i < 3,
        rankGE (adjs.getD i 0, sizes.getD i 0)
          (adjs.getD (argminIdx adjs sizes start) 0,
            sizes.getD (argminIdx adjs sizes start) 0) := by
  have hfold : argminIdx adjs sizes start =
      argminStep adjs sizes
        (argminStep adjs sizes (argminStep adjs sizes start 0) 1) 2 := rfl
  set m0 := argminStep adjs sizes start 0 with hm0
  set m1 := argminStep adjs sizes m0 1 with hm1
  have h0 := argminStep_spec adjs sizes start 0
  have h1 := argminStep_spec adjs sizes m0 1
  have h2 := argminStep_spec adjs sizes m1 2
  rw [hfold]
  constructor
  · rcases h0.1 with e | e <;> rcases h1.1 with e1 | e1 <;>
      rcases h2.1 with e2 | e2 <;> omega
  · intro i hi
    interval_cases i
    · exact rankGE_trans h0.2.2 (rankGE_trans h1.2.1 h2.2.1)
    · exact rankGE_trans h1.2.2 h2.2.1
    · exact h2.2.2

theorem selStep_full_skip {π : Type} (st : LMKSel π) (x : π) (adj sz : Int)
    (h3 : ¬st.allSel < LOWMEM_DEATHPENDING_DEPTH)
    (hco : ¬(st.selAdj.getD st.maxIdx 0 < adj ∨
      (st.selAdj.getD st.maxIdx 0 = adj ∧ st.selSize.getD st.maxIdx 0 < sz))) :
    selStep st x adj sz = st := by
  unfold selStep selSlot
  rw [if_neg h3, if_neg hco]

theorem selStep_full_replace {π : Type} (st : LMKSel π) (x : π) (adj sz : Int)
    (h3 : ¬st.allSel < LOWMEM_DEATHPENDING_DEPTH)
    (hco : st.selAdj.getD st.maxIdx 0 < adj ∨
      (st.selAdj.getD st.maxIdx 0 = adj ∧ st.selSize.getD st.maxIdx 0 < sz)) :
    selStep st x adj sz = selInsert st x adj sz st.maxIdx := by
  unfold selStep selSlot
  rw [if_neg h3, if_pos hco]

theorem rankGE_mk {pA pS qA qS : Int} :
    rankGE (pA, pS) (qA, qS) ↔ qA < pA ∨ (qA = pA ∧ qS ≤ pS) := Iff.rfl

/-- The `(oom_score_adj, tasksize)` pairs held in the occupied slots of the
pool, in slot order. -/
def poolPairs {π : Type} (st : LMKSel π) : List Cand :=
  (List.range LOWMEM_DEATHPENDING_DEPTH).filterMap fun i =>
    match st.selected.getD i none with
    | some _ => some (st.selAdj.getD i 0, st.selSize.getD i 0)
    | none => none

/-- Invariant tying the concrete pool state to an abstract pool list `s`
(the rank-sorted truncation of the processed candidates). -/
structure PoolRel {π : Type} (st : LMKSel π) (s : List Cand) : Prop where
  len_sel : st.selected.length = 3
  len_size : st.selSize.length = 3
  len_adj : st.selAdj.length = 3
  allSel_eq : st.allSel = s.length
  len_le : s.length ≤ 3
  occ : ∀ i, i < 3 → ((st.selected.getD i none).isSome ↔ i < st.allSel)
  pool_perm : List.Perm (poolPairs st) s
  full_min : st.allSel = 3 → st.maxIdx < 3 ∧
    ∀ y ∈ s, rankGE y (st.selAdj.getD st.maxIdx 0, st.selSize.getD st.maxIdx 0)

theorem poolRel_init {π : Type} (minAdj : Int) : PoolRel (initSel π minAdj) [] := by
  refine ⟨rfl, rfl, rfl, rfl, by simp, ?_, List.Perm.nil, ?_⟩
  · intro i hi
    interval_cases i <;> simp [initSel]
  · intro h3
    simp [initSel] at h3

theorem replace_weakest_perm (u v : List Cand) (y0 y1 y2 w c : Cand)
    (hperm : List.Perm (u ++ w :: v) [y0, y1, y2])
    (h01 : rankGE y0 y1) (h12 : rankGE y1 y2)
    (hmin : ∀ y ∈ [y0, y1, y2], rankGE y w)
    (hlt : ¬rankGE w c) :
    List.Perm (u ++ c :: v) (specStep [y0, y1, y2] c) := by
  have hwmem : w ∈ [y0, y1, y2] := hperm.subset (by simp)
  have hwge2 : rankGE w y2 := by
    simp only [List.mem_cons, List.not_mem_nil, or_false] at hwmem
    rcases hwmem with rfl | rfl | rfl
    · exact rankGE_trans h01 h12
    · exact h12
    · exact rankGE_refl _
  have ey2 : y2 = w := antisymm (hmin y2 (by simp)) hwge2
  have hcw : rankGE c w := (total_of rankGE w c).resolve_left hlt
  have huv : List.Perm (u ++ v) [y0, y1] := by
    have h1 : List.Perm (u ++ w :: v) (w :: (u ++ v)) := List.perm_middle
    have h2 : List.Perm [y0, y1, y2] (w :: [y0, y1]) := by
      rw [ey2]
      exact List.perm_append_singleton w [y0, y1]
    exact ((h1.symm.trans hperm).trans h2).cons_inv
  have hspec2 : List.Perm (specStep [y0, y1, y2] c) (c :: [y0, y1]) := by
    by_cases hr0 : rankGE c y0
    · have he : specStep [y0, y1, y2] c = [c, y0, y1] := by
        simp [specStep, LOWMEM_DEATHPENDING_DEPTH, hr0]
      rw [he]
    · by_cases hr1 : rankGE c y1
      · have he : specStep [y0, y1, y2] c = [y0, c, y1] := by
          simp [specStep, LOWMEM_DEATHPENDING_DEPTH, hr0, hr1]
        rw [he]
        exact List.Perm.swap c y0 [y1]
      · by_cases hr2 : rankGE c y2
        · have he : specStep [y0, y1, y2] c = [y0, y1, c] := by
            simp [specStep, LOWMEM_DEATHPENDING_DEPTH, hr0, hr1, hr2]
          rw [he]
          exact List.perm_append_singleton c [y0, y1]
        · rw [ey2] at hr2
          exact absurd hcw hr2
  exact (List.perm_middle).trans ((huv.cons c).trans hspec2.symm)

set_option maxHeartbeats 1000000 in
theorem poolRel_selStep {π : Type} {st : LMKSel π} {s : List Cand}
    (h : PoolRel st s) (hs : List.Sorted rankGE s) (x : π) (c : Cand) :
    PoolRel (selStep st x c.1 c.2) (specStep s c) := by
  obtain ⟨sel, siz, adj, n, m⟩ := st
  obtain ⟨cA, cS, rfl⟩ : ∃ a b, c = (a, b) := ⟨c.1, c.2, rfl⟩
  obtain ⟨v0, v1, v2, rfl⟩ := List.length_eq_three.mp h.len_sel
  obtain ⟨z0, z1, z2, rfl⟩ := List.length_eq_three.mp h.len_size
  obtain ⟨a0, a1, a2, rfl⟩ := List.length_eq_three.mp h.len_adj
  have hocc := h.occ
  have hperm := h.pool_perm
  have hn : n = s.length := h.allSel_eq
  have hle := h.len_le
  rcases s with _ | ⟨y0, s⟩
  · -- pool empty
    simp only [List.length_nil] at hn
    subst hn
    have h0 : v0 = none := by
      have t := hocc 0 (by omega); simp at t; exact t
    have h1 : v1 = none := by
      have t := hocc 1 (by omega); simp at t; exact t
    have h2 : v2 = none := by
      have t := hocc 2 (by omega); simp at t; exact t
    subst h0 h1 h2
    have hstep : selStep (⟨[none, none, none], [z0, z1, z2], [a0, a1, a2], 0, m⟩ :
        LMKSel π) x cA cS =
        ⟨[some x, none, none], [cS, z1, z2], [cA, a1, a2], 1, 0⟩ := rfl
    have hspec : specStep [] (cA, cS) = [(cA, cS)] := rfl
    rw [hstep, hspec]
    refine ⟨rfl, rfl, rfl, rfl, by simp, ?_, ?_, ?_⟩
    · intro i hi; interval_cases i <;> simp
    · exact List.Perm.refl _
    · intro h3; simp at h3
  · obtain ⟨b0, t0⟩ := y0
    rcases s with _ | ⟨y1, s⟩
    · -- pool has one entry
      simp only [List.length_cons, List.length_nil] at hn
      subst hn
      obtain ⟨p0, hp0⟩ : ∃ p, v0 = some p := by
        have t := hocc 0 (by omega)
        simp at t
        exact Option.isSome_iff_exists.mp t
      have h1 : v1 = none := by
        have t := hocc 1 (by omega); simp at t; exact t
      have h2 : v2 = none := by
        have t := hocc 2 (by omega); simp at t; exact t
      subst hp0 h1 h2
      have hpp : poolPairs (⟨[some p0, none, none], [z0, z1, z2],
          [a0, a1, a2], 1, m⟩ : LMKSel π) = [(a0, z0)] := rfl
      rw [hpp] at hperm
      have ey : (a0, z0) = ((b0, t0) : Cand) := by
        have := List.perm_singleton.mp hperm
        simpa using this
      have hstep : selStep (⟨[some p0, none, none], [z0, z1, z2],
          [a0, a1, a2], 1, m⟩ : LMKSel π) x cA cS =
          ⟨[some p0, some x, none], [z0, cS, z2], [a0, cA, a2], 2, 1⟩ := rfl
      rw [hstep]
      by_cases hr : rankGE (cA, cS) (b0, t0)
      · have hspec : specStep [(b0, t0)] (cA, cS) = [(cA, cS), (b0, t0)] := by
          simp [specStep, LOWMEM_DEATHPENDING_DEPTH, hr]
        rw [hspec]
        refine ⟨rfl, rfl, rfl, rfl, by simp, ?_, ?_, ?_⟩
        · intro i hi; interval_cases i <;> simp
        · have hpp2 : poolPairs (⟨[some p0, some x, none], [z0, cS, z2],
              [a0, cA, a2], 2, 1⟩ : LMKSel π) = [(a0, z0), (cA, cS)] := rfl
          rw [hpp2, ey]
          exact List.Perm.swap (cA, cS) (b0, t0) []
        · intro h3; simp at h3
      · have hspec : specStep [(b0, t0)] (cA, cS) = [(b0, t0), (cA, cS)] := by
          simp [specStep, LOWMEM_DEATHPENDING_DEPTH, hr]
        rw [hspec]
        refine ⟨rfl, rfl, rfl, rfl, by simp, ?_, ?_, ?_⟩
        · intro i hi; interval_cases i <;> simp
        · have hpp2 : poolPairs (⟨[some p0, some x, none], [z0, cS, z2],
              [a0, cA, a2], 2, 1⟩ : LMKSel π) = [(a0, z0), (cA, cS)] := rfl
          rw [hpp2, ey]
        · intro h3; simp at h3
    · rcases s with _ | ⟨y2, s⟩
      · -- pool has two entries, the candidate fills it
        obtain ⟨b1, t1⟩ := y1
        simp only [List.length_cons, List.length_nil] at hn
        subst hn
        obtain ⟨p0, hp0⟩ : ∃ p, v0 = some p := by
          have t := hocc 0 (by omega)
          simp at t
          exact Option.isSome_iff_exists.mp t
        obtain ⟨p1, hp1⟩ : ∃ p, v1 = some p := by
          have t := hocc 1 (by omega)
          simp at t
          exact Option.isSome_iff_exists.mp t
        have h2 : v2 = none := by
          have t := hocc 2 (by omega); simp at t; exact t
        subst hp0 hp1 h2
        have hpp : poolPairs (⟨[some p0, some p1, none], [z0, z1, z2],
            [a0, a1, a2], 2, m⟩ : LMKSel π) = [(a0, z0), (a1, z1)] := rfl
        rw [hpp] at hperm
        have hstep : selStep (⟨[some p0, some p1, none], [z0, z1, z2],
            [a0, a1, a2], 2, m⟩ : LMKSel π) x cA cS =
            ⟨[some p0, some p1, some x], [z0, z1, cS], [a0, a1, cA], 3,
              argminIdx [a0, a1, cA] [z0, z1, cS] 2⟩ := rfl
        rw [hstep]
        have hargmin := argminIdx_spec [a0, a1, cA] [z0, z1, cS] 2 (by omega)
        have hpp2 : poolPairs (⟨[some p0, some p1, some x], [z0, z1, cS],
            [a0, a1, cA], 3, argminIdx [a0, a1, cA] [z0, z1, cS] 2⟩ :
              LMKSel π) = [(a0, z0), (a1, z1), (cA, cS)] := rfl
        have happ : List.Perm [(a0, z0), (a1, z1), ((cA, cS) : Cand)]
            [(b0, t0), (b1, t1), (cA, cS)] :=
          hperm.append_right [(cA, cS)]
        have hmin : ∀ y ∈ [(a0, z0), (a1, z1), ((cA, cS) : Cand)], rankGE y
            ([a0, a1, cA].getD (argminIdx [a0, a1, cA] [z0, z1, cS] 2) 0,
              [z0, z1, cS].getD (argminIdx [a0, a1, cA] [z0, z1, cS] 2) 0) := by
          intro y hy
          simp only [List.mem_cons, List.not_mem_nil, or_false] at hy
          rcases hy with rfl | rfl | rfl
          · exact hargmin.2 0 (by omega)
          · exact hargmin.2 1 (by omega)
          · exact hargmin.2 2 (by omega)
        by_cases hr0 : rankGE (cA, cS) (b0, t0)
        · have hspec : specStep [(b0, t0), (b1, t1)] (cA, cS) =
              [(cA, cS), (b0, t0), (b1, t1)] := by
            simp [specStep, LOWMEM_DEATHPENDING_DEPTH, hr0]
          rw [hspec]
          have hp2 : List.Perm (poolPairs (⟨[some p0, some p1, some x],
              [z0, z1, cS], [a0, a1, cA], 3,
              argminIdx [a0, a1, cA] [z0, z1, cS] 2⟩ : LMKSel π))
              [(cA, cS), (b0, t0), (b1, t1)] := by
            rw [hpp2]
            exact happ.trans (List.perm_append_singleton (cA, cS) [(b0, t0), (b1, t1)])
          refine ⟨rfl, rfl, rfl, rfl, by simp, ?_, hp2, ?_⟩
          · intro i hi; interval_cases i <;> simp
          · intro h3
            refine ⟨hargmin.1, ?_⟩
            intro y hy
            rw [hpp2] at hp2
            exact hmin y (hp2.mem_iff.mpr hy)
        · by_cases hr1 : rankGE (cA, cS) (b1, t1)
          · have hspec : specStep [(b0, t0), (b1, t1)] (cA, cS) =
                [(b0, t0), (cA, cS), (b1, t1)] := by
              simp [specStep, LOWMEM_DEATHPENDING_DEPTH, hr0, hr1]
            rw [hspec]
            have hp2 : List.Perm (poolPairs (⟨[some p0, some p1, some x],
                [z0, z1, cS], [a0, a1, cA], 3,
                argminIdx [a0, a1, cA] [z0, z1, cS] 2⟩ : LMKSel π))
                [(b0, t0), (cA, cS), (b1, t1)] := by
              rw [hpp2]
              exact happ.trans
                (List.Perm.cons (b0, t0) (List.Perm.swap (cA, cS) (b1, t1) []))
            refine ⟨rfl, rfl, rfl, rfl, by simp, ?_, hp2, ?_⟩
            · intro i hi; interval_cases i <;> simp
            · intro h3
              refine ⟨hargmin.1, ?_⟩
              intro y hy
              rw [hpp2] at hp2
              exact hmin y (hp2.mem_iff.mpr hy)
          · have hspec : specStep [(b0, t0), (b1, t1)] (cA, cS) =
                [(b0, t0), (b1, t1), (cA, cS)] := by
              simp [specStep, LOWMEM_DEATHPENDING_DEPTH, hr0, hr1]
            rw [hspec]
            have hp2 : List.Perm (poolPairs (⟨[some p0, some p1, some x],
                [z0, z1, cS], [a0, a1, cA], 3,
                argminIdx [a0, a1, cA] [z0, z1, cS] 2⟩ : LMKSel π))
                [(b0, t0), (b1, t1), (cA, cS)] := by
              rw [hpp2]; exact happ
            refine ⟨rfl, rfl, rfl, rfl, by simp, ?_, hp2, ?_⟩
            · intro i hi; interval_cases i <;> simp
            · intro h3
              refine ⟨hargmin.1, ?_⟩
              intro y hy
              rw [hpp2] at hp2
              exact hmin y (hp2.mem_iff.mpr hy)
      · -- pool full
        obtain ⟨b1, t1⟩ := y1
        obtain ⟨b2, t2⟩ := y2
        have hsnil : s = [] := by
          simp only [List.length_cons] at hle
          exact List.length_eq_zero.mp (by omega)
        subst hsnil
        have hn3 : n = 3 := by simpa using hn
        subst hn3
        obtain ⟨p0, hp0⟩ : ∃ p, v0 = some p := by
          have t := hocc 0 (by omega)
          simp at t
          exact Option.isSome_iff_exists.mp t
        obtain ⟨p1, hp1⟩ : ∃ p, v1 = some p := by
          have t := hocc 1 (by omega)
          simp at t
          exact Option.isSome_iff_exists.mp t
        obtain ⟨p2, hp2⟩ : ∃ p, v2 = some p := by
          have t := hocc 2 (by omega)
          simp at t
          exact Option.isSome_iff_exists.mp t
        subst hp0 hp1 hp2
        have hpp : poolPairs (⟨[some p0, some p1, some p2], [z0, z1, z2],
            [a0, a1, a2], 3, m⟩ : LMKSel π) = [(a0, z0), (a1, z1), (a2, z2)] := rfl
        rw [hpp] at hperm
        obtain ⟨hmlt, hmmin⟩ := h.full_min rfl
        obtain ⟨hh0, hs1⟩ := List.sorted_cons.mp hs
        obtain ⟨hh1, _⟩ := List.sorted_cons.mp hs1
        have h01 : rankGE ((b0, t0) : Cand) ((b1, t1) : Cand) := hh0 _ (by simp)
        have h12 : rankGE ((b1, t1) : Cand) ((b2, t2) : Cand) := hh1 _ (by simp)
        by_cases hco : [a0, a1, a2].getD m 0 < cA ∨
            ([a0, a1, a2].getD m 0 = cA ∧ [z0, z1, z2].getD m 0 < cS)
        · -- strictly better than the weakest slot: replace it
          rw [selStep_full_replace _ x cA cS (by simp [LOWMEM_DEATHPENDING_DEPTH]) hco]
          have hlt : ¬rankGE (([a0, a1, a2].getD m 0, [z0, z1, z2].getD m 0) : Cand)
              ((cA, cS) : Cand) := by
            rw [rankGE_mk]
            omega
          interval_cases m
          · have hp2 : List.Perm ([] ++ ((cA, cS) : Cand) :: [(a1, z1), (a2, z2)])
                (specStep [(b0, t0), (b1, t1), (b2, t2)] (cA, cS)) :=
              replace_weakest_perm [] [(a1, z1), (a2, z2)] (b0, t0) (b1, t1)
                (b2, t2) (a0, z0) (cA, cS) hperm h01 h12 hmmin hlt
          
            show PoolRel (⟨[some x, some p1, some p2], [cS, z1, z2], [cA, a1, a2],
              3, argminIdx [cA, a1, a2] [cS, z1, z2] 0⟩ : LMKSel π)
              (specStep [(b0, t0), (b1, t1), (b2, t2)] (cA, cS))
            have hargmin := argminIdx_spec [cA, a1, a2] [cS, z1, z2] 0 (by omega)
            have hlen : (specStep [(b0, t0), (b1, t1), (b2, t2)]
                ((cA, cS) : Cand)).length = 3 := by
              rw [← hp2.length_eq]
              rfl
            refine ⟨rfl, rfl, rfl, hlen.symm, by omega, ?_, hp2, ?_⟩
            · intro i hi; interval_cases i <;> simp
            · intro h3
              refine ⟨hargmin.1, ?_⟩
              intro y hy
              have hy2 : y ∈ [((cA, cS) : Cand), (a1, z1), (a2, z2)] :=
                hp2.mem_iff.mpr hy
              simp only [List.mem_cons, List.not_mem_nil, or_false] at hy2
              rcases hy2 with rfl | rfl | rfl
              · exact hargmin.2 0 (by omega)
              · exact hargmin.2 1 (by omega)
              · exact hargmin.2 2 (by omega)
          · have hp2 : List.Perm ([(a0, z0)] ++ ((cA, cS) : Cand) :: [(a2, z2)])
                (specStep [(b0, t0), (b1, t1), (b2, t2)] (cA, cS)) :=
              replace_weakest_perm [(a0, z0)] [(a2, z2)] (b0, t0) (b1, t1)
                (b2, t2) (a1, z1) (cA, cS) hperm h01 h12 hmmin hlt
            show PoolRel (⟨[some p0, some x, some p2], [z0, cS, z2], [a0, cA, a2],
              3, argminIdx [a0, cA, a2] [z0, cS, z2] 1⟩ : LMKSel π)
              (specStep [(b0, t0), (b1, t1), (b2, t2)] (cA, cS))
            have hargmin := argminIdx_spec [a0, cA, a2] [z0, cS, z2] 1 (by omega)
            have hlen : (specStep [(b0, t0), (b1, t1), (b2, t2)]
                ((cA, cS) : Cand)).length = 3 := by
              rw [← hp2.length_eq]
              rfl
            refine ⟨rfl, rfl, rfl, hlen.symm, by omega, ?_, hp2, ?_⟩
            · intro i hi; interval_cases i <;> simp
            · intro h3
              refine ⟨hargmin.1, ?_⟩
              intro y hy
              have hy2 : y ∈ [((a0, z0) : Cand), (cA, cS), (a2, z2)] :=
                hp2.mem_iff.mpr hy
              simp only [List.mem_cons, List.not_mem_nil, or_false] at hy2
              rcases hy2 with rfl | rfl | rfl
              · exact hargmin.2 0 (by omega)
              · exact hargmin.2 1 (by omega)
              · exact hargmin.2 2 (by omega)
          · have hp2 : List.Perm ([(a0, z0), (a1, z1)] ++ ((cA, cS) : Cand) :: [])
                (specStep [(b0, t0), (b1, t1), (b2, t2)] (cA, cS)) :=
              replace_weakest_perm [(a0, z0), (a1, z1)] [] (b0, t0) (b1, t1)
                (b2, t2) (a2, z2) (cA, cS) hperm h01 h12 hmmin hlt
            show PoolRel (⟨[some p0, some p1, some x], [z0, z1, cS], [a0, a1, cA],
              3, argminIdx [a0, a1, cA] [z0, z1, cS] 2⟩ : LMKSel π)
              (specStep [(b0, t0), (b1, t1), (b2, t2)] (cA, cS))
            have hargmin := argminIdx_spec [a0, a1, cA] [z0, z1, cS] 2 (by omega)
            have hlen : (specStep [(b0, t0), (b1, t1), (b2, t2)]
                ((cA, cS) : Cand)).length = 3 := by
              rw [← hp2.length_eq]
              rfl
            refine ⟨rfl, rfl, rfl, hlen.symm, by omega, ?_, hp2, ?_⟩
            · intro i hi; interval_cases i <;> simp
            · intro h3
              refine ⟨hargmin.1, ?_⟩
              intro y hy
              have hy2 : y ∈ [((a0, z0) : Cand), (a1, z1), (cA, cS)] :=
                hp2.mem_iff.mpr hy
              simp only [List.mem_cons, List.not_mem_nil, or_false] at hy2
              rcases hy2 with rfl | rfl | rfl
              · exact hargmin.2 0 (by omega)
              · exact hargmin.2 1 (by omega)
              · exact hargmin.2 2 (by omega)
        · -- not better than the weakest slot: pool unchanged
          rw [selStep_full_skip _ x cA cS (by simp [LOWMEM_DEATHPENDING_DEPTH]) hco]
          have hwge : rankGE (([a0, a1, a2].getD m 0, [z0, z1, z2].getD m 0) : Cand)
              ((cA, cS) : Cand) := by
            rw [rankGE_mk]
            omega
          have hq2 : rankGE ((b2, t2) : Cand)
              (([a0, a1, a2].getD m 0, [z0, z1, z2].getD m 0) : Cand) :=
            hmmin _ (by simp)
          rw [rankGE_mk] at hwge hq2 h01 h12
          by_cases hr0 : rankGE ((cA, cS) : Cand) ((b0, t0) : Cand)
          · have hspec : specStep [(b0, t0), (b1, t1), (b2, t2)] (cA, cS) =
                [(cA, cS), (b0, t0), (b1, t1)] := by
              simp [specStep, LOWMEM_DEATHPENDING_DEPTH, hr0]
            rw [hspec]
            rw [rankGE_mk] at hr0
            have eb0 : b0 = cA := by omega
            have eb1 : b1 = cA := by omega
            have eb2 : b2 = cA := by omega
            have et0 : t0 = cS := by omega
            have et1 : t1 = cS := by omega
            have et2 : t2 = cS := by omega
            subst eb0 eb1 eb2 et0 et1 et2
            exact h
          · by_cases hr1 : rankGE ((cA, cS) : Cand) ((b1, t1) : Cand)
            · have hspec : specStep [(b0, t0), (b1, t1), (b2, t2)] (cA, cS) =
                  [(b0, t0), (cA, cS), (b1, t1)] := by
                simp [specStep, LOWMEM_DEATHPENDING_DEPTH, hr0, hr1]
              rw [hspec]
              rw [rankGE_mk] at hr1
              have eb1 : b1 = cA := by omega
              have eb2 : b2 = cA := by omega
              have et1 : t1 = cS := by omega
              have et2 : t2 = cS := by omega
              subst eb1 eb2 et1 et2
              exact h
            · by_cases hr2 : rankGE ((cA, cS) : Cand) ((b2, t2) : Cand)
              · have hspec : specStep [(b0, t0), (b1, t1), (b2, t2)] (cA, cS) =
                    [(b0, t0), (b1, t1), (cA, cS)] := by
                  simp [specStep, LOWMEM_DEATHPENDING_DEPTH, hr0, hr1, hr2]
                rw [hspec]
                rw [rankGE_mk] at hr2
                have eb2 : b2 = cA := by omega
                have et2 : t2 = cS := by omega
                subst eb2 et2
                exact h
              · have hspec : specStep [(b0, t0), (b1, t1), (b2, t2)] (cA, cS) =
                    [(b0, t0), (b1, t1), (b2, t2)] := by
                  simp [specStep, LOWMEM_DEATHPENDING_DEPTH, hr0, hr1, hr2]
                rw [hspec]
                exact h

theorem sorted_specStep (s : List Cand) (hs : List.Sorted rankGE s) (c : Cand) :
    List.Sorted rankGE (specStep s c) :=
  (hs.orderedInsert c s).sublist (List.take_sublist _ _)

/-- Feeding a list of candidates (with slot payloads) to the pool. -/
def feedPool {π : Type} (st : LMKSel π) (xs : List (π × Cand)) : LMKSel π :=
  xs.foldl (fun st pc => selStep st pc.1 pc.2.1 pc.2.2) st

theorem feedPool_rel {π : Type} (xs : List (π × Cand)) (st : LMKSel π)
    (s : List Cand) (h : PoolRel st s) (hsort : List.Sorted rankGE s) :
    PoolRel (feedPool st xs) (List.foldl specStep s (xs.map Prod.snd)) := by
  induction xs generalizing st s with
  | nil => exact h
  | cons pc xs ih =>
    simp only [feedPool, List.foldl_cons, List.map_cons]
    exact ih _ _ (poolRel_selStep h hsort pc.1 pc.2) (sorted_specStep s hsort pc.2)

/-- The candidate pool fed with bare candidates, as exercised by the spec's
pool scenarios. -/
def runPool (cs : List Cand) : LMKSel Unit :=
  cs.foldl (fun st c => selStep st () c.1 c.2) (initSel Unit 0)

theorem runPool_perm_topK (cs : List Cand) :
    List.Perm (poolPairs (runPool cs)) (topK cs) := by
  have h := feedPool_rel (cs.map fun c => ((), c)) (initSel Unit 0) []
    (poolRel_init 0) (by simp)
  have hmap : (cs.map fun c => ((), c)).map Prod.snd = cs := by simp
  rw [hmap] at h
  have hrun : runPool cs = feedPool (initSel Unit 0) (cs.map fun c => ((), c)) := by
    unfold runPool feedPool
    rw [List.foldl_map]
  rw [hrun]
  have hp := h.pool_perm
  rw [show List.foldl specStep [] cs = specRun cs from rfl, specRun_eq_topK] at hp
  exact hp

/-- C2: for any sequence of candidates fed to the fixed-capacity pool of
size `K = LOWMEM_DEATHPENDING_DEPTH = 3`, the final pool holds exactly the
`K` highest-ranked candidates under (priority descending, then resident
size descending), independently of arrival order; in particular the
arrival order `(5,100), (8,50), (8,200), (3,900)` leaves the pool
`{(8,200), (8,50), (5,100)}` and rejects `(3,900)`. -/
theorem c2_pool_topK :
    (∀ cs cs' : List Cand, List.Perm cs cs' →
      (poolPairs (runPool cs) : Multiset Cand) = (poolPairs (runPool cs'))) ∧
    (∀ cs : List Cand,
      (poolPairs (runPool cs) : Multiset Cand) = (topK cs : List Cand)) ∧
    (poolPairs (runPool [(5, 100), (8, 50), (8, 200), (3, 900)]) : Multiset Cand) =
      ({((8 : Int), (200 : Int)), (8, 50), (5, 100)} : Multiset Cand) := by
  refine ⟨?_, ?_, ?_⟩
  · intro cs cs' hp
    rw [Multiset.coe_eq_coe.mpr (runPool_perm_topK cs),
      Multiset.coe_eq_coe.mpr (runPool_perm_topK cs'), topK_perm_invariant hp]
  · intro cs
    exact Multiset.coe_eq_coe.mpr (runPool_perm_topK cs)
  · decide

/-- Witness for C2: the permutation-invariance clause applied at a
concrete pair of permuted arrival orders. -/
theorem c2_pool_topK_witness :
    (poolPairs (runPool [(5, 100), (8, 50)]) : Multiset Cand) =
      (poolPairs (runPool [(8, 50), (5, 100)])) :=
  c2_pool_topK.1 [(5, 100), (8, 50)] [(8, 50), (5, 100)] (by decide)

theorem scanFrom_some (cond : Nat → Bool) :
    ∀ (fuel i j : Nat), scanFrom cond i fuel = some j →
      i ≤ j ∧ j < i + fuel ∧ cond j = true ∧
        ∀ k, i ≤ k → k < j → cond k = false := by
  intro fuel
  induction fuel with
  | zero => intro i j h; simp [scanFrom] at h
  | succ n ih =>
    intro i j h
    rw [scanFrom] at h
    by_cases hc : cond i
    · rw [if_pos hc] at h
      injection h with h
      subst h
      exact ⟨Nat.le_refl _, by omega, hc, fun k hk1 hk2 => by omega⟩
    · rw [if_neg hc] at h
      obtain ⟨h1, h2, h3, h4⟩ := ih (i + 1) j h
      refine ⟨by omega, by omega, h3, ?_⟩
      intro k hk1 hk2
      rcases Nat.eq_or_lt_of_le hk1 with rfl | hk
      · simpa using hc
      · exact h4 k (by omega) hk2

theorem scanFrom_none (cond : Nat → Bool) :
    ∀ (fuel i : Nat), scanFrom cond i fuel = none →
      ∀ k, i ≤ k → k < i + fuel → cond k = false := by
  intro fuel
  induction fuel with
  | zero => intro i _ k hk1 hk2; omega
  | succ n ih =>
    intro i h k hk1 hk2
    rw [scanFrom] at h
    by_cases hc : cond i
    · rw [if_pos hc] at h; exact absurd h (by simp)
    · rw [if_neg hc] at h
      rcases Nat.eq_or_lt_of_le hk1 with rfl | hk
      · simpa using hc
      · exact ih (i + 1) h k (by omega) (by omega)

theorem scanLoop_abort (minAdj : Int) (jiffies deadline : Nat)
    (hj : jiffies ≤ deadline) :
    ∀ (procs : List Proc) (st : LMKSel Proc),
      (∃ p ∈ procs, p.kthread = false ∧ p.memdie = true) →
      scanLoop minAdj jiffies deadline st procs = none := by
  intro procs
  induction procs with
  | nil =>
    intro st h
    obtain ⟨p, hp, _⟩ := h
    simp at hp
  | cons p rest ih =>
    intro st h
    obtain ⟨q, hq, hqk, hqm⟩ := h
    rw [scanLoop]
    by_cases hk : p.kthread
    · rw [if_pos hk]
      have hq2 : q ∈ rest := by
        rcases List.mem_cons.mp hq with rfl | h2
        · rw [hk] at hqk; exact absurd hqk (by simp)
        · exact h2
      exact ih st ⟨q, hq2, hqk, hqm⟩
    · rw [if_neg hk]
      by_cases hm : p.memdie
      · rw [if_pos ⟨hj, hm⟩]
      · rw [if_neg (fun hand => hm hand.2)]
        have hq2 : q ∈ rest := by
          rcases List.mem_cons.mp hq with rfl | h2
          · rw [hqm] at hm; exact absurd rfl hm
          · exact h2
        split_ifs <;> exact ih _ ⟨q, hq2, hqk, hqm⟩

theorem lowmem_shrink_contended (cfg : LMKConfig) (mem : MemInput)
    (procs : List Proc) (jiffies nr : Nat) (isK : Bool) (st : ScanState)
    (h1 : 0 < nr) :
    lowmem_shrink cfg mem procs jiffies nr true isK st =
      ⟨0, [], st, sleepCond cfg isK, false⟩ := by
  unfold lowmem_shrink
  rw [if_pos ⟨h1, rfl⟩]

theorem lowmem_shrink_query (cfg : LMKConfig) (mem : MemInput)
    (procs : List Proc) (jiffies nr : Nat) (lock isK : Bool) (st : ScanState)
    (h1 : ¬(0 < nr ∧ lock = true))
    (h2 : nr = 0 ∨ lookupMinScoreAdj cfg mem (forkBoostActive cfg jiffies st) =
      OOM_SCORE_ADJ_MAX + 1) :
    lowmem_shrink cfg mem procs jiffies nr lock isK st =
      ⟨remPages mem, [], st, false, false⟩ := by
  unfold lowmem_shrink
  rw [if_neg h1, if_pos h2]

theorem lowmem_shrink_abort (cfg : LMKConfig) (mem : MemInput)
    (procs : List Proc) (jiffies nr : Nat) (lock isK : Bool) (st : ScanState)
    (h1 : ¬(0 < nr ∧ lock = true))
    (h2 : ¬(nr = 0 ∨ lookupMinScoreAdj cfg mem (forkBoostActive cfg jiffies st) =
      OOM_SCORE_ADJ_MAX + 1))
    (h3 : scanLoop (lookupMinScoreAdj cfg mem (forkBoostActive cfg jiffies st))
      jiffies st.deathpending_timeout
      (initSel Proc (lookupMinScoreAdj cfg mem (forkBoostActive cfg jiffies st)))
      procs = none) :
    lowmem_shrink cfg mem procs jiffies nr lock isK st =
      ⟨0, [], { st with lmk_running := 0 }, sleepCond cfg isK, true⟩ := by
  unfold lowmem_shrink
  rw [if_neg h1, if_neg h2, h3]

/-! ### Concrete configurations used by scenario and counterexample
theorems -/

/-- The driver's default tables (lines 119-132). -/
def cfgDefault : LMKConfig :=
  ⟨[0, 1, 6, 12], 4, [1536, 2048, 4096, 16384], 4, [0, 0, 0, 5120, 6177, 6177],
    false, true⟩

/-- A one-entry table: cutoff 0 at min-free 100 pages. -/
def cfgOne100 : LMKConfig :=
  ⟨[0], 1, [100], 1, [0, 0, 0, 0, 0, 0], false, true⟩

/-- A one-entry table: cutoff 0 at min-free 1536 pages. -/
def cfgOne1536 : LMKConfig :=
  ⟨[0], 1, [1536], 1, [0, 0, 0, 0, 0, 0], false, true⟩

/-- A reading with zero free pages against a 50-page reserve: the
free-memory deficit is negative. -/
def memNegDeficit : MemInput := ⟨0, 0, 0, 0, 0, 0, 0, 0, 0, 50⟩

/-- The spec's scenario reading: free 1800, file 500, reserve 0. -/
def memScenario : MemInput := ⟨1800, 500, 0, 0, 0, 0, 0, 0, 0, 0⟩

/-- A reading sitting exactly on the 1536-page threshold. -/
def memBoundary : MemInput := ⟨1536, 1536, 0, 0, 0, 0, 0, 0, 0, 0⟩

/-- C1 counterexample: with the single entry (cutoff 0, min-free 100),
free = 0, file = 0 and reserved_free = 50, the claim's condition
`(free_pages - reserved_free) < threshold AND file_pages < threshold`
holds at entry 0 (−50 < 100 and 0 < 100), so the claim requires the
lookup to return that entry's cutoff 0; the code's `int < size_t`
comparison converts the negative deficit to a huge unsigned value, no
entry is crossed, and the lookup returns `OOM_SCORE_ADJ_MAX + 1 = 1001`. -/
theorem c1_counterexample :
    (otherFree memNegDeficit - memNegDeficit.reserved_free < 100 ∧
      otherFile memNegDeficit < 100) ∧
    lookupMinScoreAdj cfgOne100 memNegDeficit false = 1001 ∧
    lookupMinScoreAdj cfgOne100 memNegDeficit false ≠
      cfgOne100.lowmem_adj.getD 0 0 := by
  refine ⟨by decide, by decide, by decide⟩

/-- C1 (amended): the threshold scan walks the (ascending-min-free) table
in index order and selects the first entry whose effective threshold
exceeds both compared quantities, where the comparison is the C
`int < size_t` one — each of `(free − reserved)` and `file` is converted
to the unsigned 32-bit range first (so a negative value compares as huge
and crosses nothing).  If no entry satisfies the conjunction, the lookup
returns `OOM_SCORE_ADJ_MAX + 1` and the shrinker kills nothing. -/
theorem c1_lookup_first_crossed (cfg : LMKConfig) (mem : MemInput)
    (boosted : Bool) :
    (∀ i, crossIdx cfg mem boosted = some i →
      i < arraySize cfg ∧
      (u32 (otherFree mem - mem.reserved_free) < effMinfree cfg boosted i ∧
        u32 (otherFile mem) < effMinfree cfg boosted i) ∧
      (∀ j, j < i → ¬(u32 (otherFree mem - mem.reserved_free) <
          effMinfree cfg boosted j ∧
        u32 (otherFile mem) < effMinfree cfg boosted j)) ∧
      lookupMinScoreAdj cfg mem boosted = cfg.lowmem_adj.getD i 0) ∧
    (crossIdx cfg mem boosted = none →
      (∀ j, j < arraySize cfg →
        ¬(u32 (otherFree mem - mem.reserved_free) < effMinfree cfg boosted j ∧
          u32 (otherFile mem) < effMinfree cfg boosted j)) ∧
      lookupMinScoreAdj cfg mem boosted = OOM_SCORE_ADJ_MAX + 1 ∧
      ∀ procs jiffies nr lock isK st,
        forkBoostActive cfg jiffies st = boosted →
        (lowmem_shrink cfg mem procs jiffies nr lock isK st).kills = []) := by
  constructor
  · intro i hi
    obtain ⟨h1, h2, h3, h4⟩ := scanFrom_some _ _ _ _ hi
    refine ⟨by omega, ?_, ?_, ?_⟩
    · have := h3
      simp [tierCond] at this
      exact this
    · intro j hj
      have := h4 j (by omega) hj
      simp [tierCond] at this
      intro hfree
      have h5 := this hfree.1
      omega
    · unfold lookupMinScoreAdj
      rw [hi]
  · intro hn
    have hall : ∀ j, j < arraySize cfg →
        ¬(u32 (otherFree mem - mem.reserved_free) < effMinfree cfg boosted j ∧
          u32 (otherFile mem) < effMinfree cfg boosted j) := by
      intro j hj
      have := scanFrom_none _ _ _ hn j (by omega) (by omega)
      simp [tierCond] at this
      intro hfree
      have h5 := this hfree.1
      omega
    have hl : lookupMinScoreAdj cfg mem boosted = OOM_SCORE_ADJ_MAX + 1 := by
      unfold lookupMinScoreAdj
      rw [hn]
    refine ⟨hall, hl, ?_⟩
    intro procs jiffies nr lock isK st hb
    by_cases hc : 0 < nr ∧ lock = true
    · obtain ⟨hc1, hc2⟩ := hc
      subst hc2
      rw [lowmem_shrink_contended cfg mem procs jiffies nr isK st hc1]
    · rw [lowmem_shrink_query cfg mem procs jiffies nr lock isK st hc
        (Or.inr (by rw [hb, hl]))]

/-- Witness for C1 (amended): at the default table and the scenario
reading, entry 1 is the first crossed entry and the lookup returns its
cutoff. -/
theorem c1_lookup_first_crossed_witness :
    1 < arraySize cfgDefault ∧
    (u32 (otherFree memScenario - memScenario.reserved_free) <
        effMinfree cfgDefault false 1 ∧
      u32 (otherFile memScenario) < effMinfree cfgDefault false 1) ∧
    lookupMinScoreAdj cfgDefault memScenario false =
      cfgDefault.lowmem_adj.getD 1 0 := by
  obtain ⟨h1, h2, h3, h4⟩ :=
    (c1_lookup_first_crossed cfgDefault memScenario false).1 1 (by decide)
  exact ⟨h1, h2, h4⟩

/-- C4 counterexample: on the table
`[(0,1536),(1,2048),(6,4096),(12,16384)]` with free = 1800, file = 500,
reserved = 0 and no boost, the lookup does not return cutoff 0 (entry 0
requires BOTH 1800 < 1536 and 500 < 1536, and the first fails). -/
theorem c4_counterexample : lookupMinScoreAdj cfgDefault memScenario false ≠ 0 := by
  decide

/-- C4 (amended): on that table and reading the lookup returns cutoff 1 —
the first entry whose threshold (2048) exceeds both the free-memory
deficit (1800) and the file pages (500). -/
theorem c4_scenario_cutoff_one :
    lookupMinScoreAdj cfgDefault memScenario false = 1 := by decide

/-- C5 counterexample: with the single entry (cutoff 0, min-free 1536)
and both compared quantities exactly 1536, no entry is crossed — equality
does NOT count as crossing — and the lookup returns the no-pressure value
1001 instead of selecting the entry. -/
theorem c5_counterexample :
    u32 (otherFree memBoundary - memBoundary.reserved_free) =
      effMinfree cfgOne1536 false 0 ∧
    u32 (otherFile memBoundary) = effMinfree cfgOne1536 false 0 ∧
    crossIdx cfgOne1536 memBoundary false = none ∧
    lookupMinScoreAdj cfgOne1536 memBoundary false = 1001 := by decide

/-- C5 (amended): crossing an entry requires both compared quantities to
be strictly below the effective threshold; a reading in which either
quantity equals the threshold never selects that entry. -/
theorem c5_boundary_strict (cfg : LMKConfig) (mem : MemInput) (boosted : Bool)
    (i : Nat)
    (heq : u32 (otherFree mem - mem.reserved_free) = effMinfree cfg boosted i ∨
      u32 (otherFile mem) = effMinfree cfg boosted i) :
    crossIdx cfg mem boosted ≠ some i := by
  intro hsome
  obtain ⟨_, _, h3, _⟩ := scanFrom_some _ _ _ _ hsome
  simp [tierCond] at h3
  omega

/-- Witness for C5 (amended): applied at the boundary reading. -/
theorem c5_boundary_strict_witness :
    crossIdx cfgOne1536 memBoundary false ≠ some 0 :=
  c5_boundary_strict cfgOne1536 memBoundary false 0 (Or.inl (by decide))

/-- C6: when a nonzero reclaim request hits a held scan lock, the
invocation returns 0, signals nobody, leaves the module state untouched,
and performs at most the short cooperative sleep the guard
`!(lowmem_only_kswapd_sleep && !current_is_kswapd())` allows. -/
theorem c6_trylock_contention (cfg : LMKConfig) (mem : MemInput)
    (procs : List Proc) (jiffies nr : Nat) (isK : Bool) (st : ScanState)
    (h : 0 < nr) :
    lowmem_shrink cfg mem procs jiffies nr true isK st =
      ⟨0, [], st, sleepCond cfg isK, false⟩ :=
  lowmem_shrink_contended cfg mem procs jiffies nr isK st h

/-- Witness for C6 at a concrete contended invocation. -/
theorem c6_trylock_contention_witness :
    lowmem_shrink cfgDefault memScenario [] 7 128 true false ⟨0, 0, 0, 0⟩ =
      ⟨0, [], ⟨0, 0, 0, 0⟩, sleepCond cfgDefault false, false⟩ :=
  c6_trylock_contention cfgDefault memScenario [] 7 128 false ⟨0, 0, 0, 0⟩
    (by decide)

/-- C3: every kill records the death-pending deadline as `jiffies + HZ`;
and a scan that enters the scanning phase (nonzero request, free lock, a
tier crossed) at a time strictly before the recorded deadline aborts with
return 0 and no victim as soon as a still-alive earlier victim (non-kernel
task carrying TIF_MEMDIE) is present in the process list. -/
theorem c3_hysteresis_abort (cfg : LMKConfig) (mem : MemInput)
    (procs : List Proc) (jiffies nr : Nat) (isK : Bool) (st : ScanState) :
    ((lowmem_shrink cfg mem procs jiffies nr false isK st).kills ≠ [] →
      (lowmem_shrink cfg mem procs jiffies nr false isK
          st).state.deathpending_timeout = jiffies + HZ) ∧
    (0 < nr →
      lookupMinScoreAdj cfg mem (forkBoostActive cfg jiffies st) ≠
        OOM_SCORE_ADJ_MAX + 1 →
      jiffies < st.deathpending_timeout →
      (∃ p ∈ procs, p.kthread = false ∧ p.memdie = true) →
      (lowmem_shrink cfg mem procs jiffies nr false isK st).ret = 0 ∧
      (lowmem_shrink cfg mem procs jiffies nr false isK st).kills = []) := by
  constructor
  · intro hk
    unfold lowmem_shrink at hk ⊢
    by_cases h1 : 0 < nr ∧ (false : Bool) = true
    · simp at h1
    · rw [if_neg h1] at hk ⊢
      by_cases h2 : nr = 0 ∨
          lookupMinScoreAdj cfg mem (forkBoostActive cfg jiffies st) =
            OOM_SCORE_ADJ_MAX + 1
      · rw [if_pos h2] at hk
        simp at hk
      · rw [if_neg h2] at hk ⊢
        cases hsc : scanLoop
            (lookupMinScoreAdj cfg mem (forkBoostActive cfg jiffies st))
            jiffies st.deathpending_timeout
            (initSel Proc
              (lookupMinScoreAdj cfg mem (forkBoostActive cfg jiffies st)))
            procs with
        | none =>
          rw [hsc] at hk
          simp at hk
        | some sel =>
          rw [hsc] at hk
          simp at hk
          simp [List.isEmpty_iff, hk]
  · intro hnr hmin hjlt hex
    have habort := scanLoop_abort
      (lookupMinScoreAdj cfg mem (forkBoostActive cfg jiffies st)) jiffies
      st.deathpending_timeout (Nat.le_of_lt hjlt) procs
      (initSel Proc (lookupMinScoreAdj cfg mem (forkBoostActive cfg jiffies st)))
      hex
    rw [lowmem_shrink_abort cfg mem procs jiffies nr false isK st (by simp)
      (by push_neg; exact ⟨by omega, hmin⟩) habort]
    exact ⟨rfl, rfl⟩

/-- Witness for C3: a scan at time 50 with deadline 100, one flagged
still-alive victim in the list, a crossed tier, returns 0 and kills
nobody. -/
theorem c3_hysteresis_abort_witness :
    (lowmem_shrink cfgDefault memScenario [⟨1, false, true, true, 900, 10⟩]
      50 128 false false ⟨100, 0, 0, 0⟩).ret = 0 ∧
    (lowmem_shrink cfgDefault memScenario [⟨1, false, true, true, 900, 10⟩]
      50 128 false false ⟨100, 0, 0, 0⟩).kills = [] :=
  (c3_hysteresis_abort cfgDefault memScenario [⟨1, false, true, true, 900, 10⟩]
    50 128 false ⟨100, 0, 0, 0⟩).2 (by decide) (by decide) (by decide)
    ⟨⟨1, false, true, true, 900, 10⟩, by decide, rfl, rfl⟩

/-- C9: on the query path (`nr_to_scan = 0`) and on the no-pressure path
(lock free, no tier crossed so `min_score_adj` stays
`OOM_SCORE_ADJ_MAX + 1`), `lowmem_shrink` signals nobody and returns the
sum of the four global active/inactive LRU counters — not 0. -/
theorem c9_query_path_returns_lru_sum (cfg : LMKConfig) (mem : MemInput)
    (procs : List Proc) (jiffies nr : Nat) (lock isK : Bool) (st : ScanState) :
    remPages mem = mem.nr_active_anon + mem.nr_active_file +
      mem.nr_inactive_anon + mem.nr_inactive_file ∧
    (nr = 0 → lowmem_shrink cfg mem procs jiffies nr lock isK st =
      ⟨remPages mem, [], st, false, false⟩) ∧
    (lock = false →
      lookupMinScoreAdj cfg mem (forkBoostActive cfg jiffies st) =
        OOM_SCORE_ADJ_MAX + 1 →
      lowmem_shrink cfg mem procs jiffies nr lock isK st =
        ⟨remPages mem, [], st, false, false⟩) := by
  refine ⟨rfl, ?_, ?_⟩
  · intro h0
    exact lowmem_shrink_query cfg mem procs jiffies nr lock isK st
      (fun hc => by omega) (Or.inl h0)
  · intro hl hm
    refine lowmem_shrink_query cfg mem procs jiffies nr lock isK st ?_ (Or.inr hm)
    intro hc
    rw [hl] at hc
    exact absurd hc.2 (by simp)

/-- Witness for C9: a query invocation (`nr_to_scan = 0`) over a reading
whose LRU counters sum to 10 returns 10 and kills nobody. -/
theorem c9_query_path_returns_lru_sum_witness :
    lowmem_shrink cfgDefault ⟨1800, 500, 0, 0, 0, 1, 2, 3, 4, 0⟩ [] 7 0 false
      false ⟨0, 0, 0, 0⟩ =
      ⟨remPages ⟨1800, 500, 0, 0, 0, 1, 2, 3, 4, 0⟩, [], ⟨0, 0, 0, 0⟩, false,
        false⟩ :=
  (c9_query_path_returns_lru_sum cfgDefault ⟨1800, 500, 0, 0, 0, 1, 2, 3, 4, 0⟩
    [] 7 0 false false ⟨0, 0, 0, 0⟩).2.1 rfl

/-- C10: every `lowmem_shrink` path that raises `lmk_running` (line 318)
clears it before returning (lines 338 and 467), and paths that never raise
it leave it unchanged; `could_cswap` never wakes the reclaim worker nor
signals the rtcc daemon while `lmk_running == 1`. -/
theorem c10_lmk_running_reset (cfg : LMKConfig) (mem : MemInput)
    (procs : List Proc) (jiffies nr : Nat) (lock isK : Bool) (st : ScanState) :
    ((lowmem_shrink cfg mem procs jiffies nr lock isK st).setLmk = true →
      (lowmem_shrink cfg mem procs jiffies nr lock isK st).state.lmk_running =
        0) ∧
    ((lowmem_shrink cfg mem procs jiffies nr lock isK st).setLmk = false →
      (lowmem_shrink cfg mem procs jiffies nr lock isK st).state.lmk_running =
        st.lmk_running) ∧
    (∀ e : CswapEnv, e.lmk_running = 1 →
      (could_cswap e).wake = false ∧ (could_cswap e).sig_rtcc = false) := by
  refine ⟨?_, ?_, ?_⟩
  · unfold lowmem_shrink
    by_cases h1 : 0 < nr ∧ lock = true
    · rw [if_pos h1]
      simp
    · rw [if_neg h1]
      by_cases h2 : nr = 0 ∨
          lookupMinScoreAdj cfg mem (forkBoostActive cfg jiffies st) =
            OOM_SCORE_ADJ_MAX + 1
      · rw [if_pos h2]
        simp
      · rw [if_neg h2]
        cases hsc : scanLoop
            (lookupMinScoreAdj cfg mem (forkBoostActive cfg jiffies st))
            jiffies st.deathpending_timeout
            (initSel Proc
              (lookupMinScoreAdj cfg mem (forkBoostActive cfg jiffies st)))
            procs with
        | none => intro _; rfl
        | some sel => intro _; rfl
  · unfold lowmem_shrink
    by_cases h1 : 0 < nr ∧ lock = true
    · rw [if_pos h1]
      intro _; rfl
    · rw [if_neg h1]
      by_cases h2 : nr = 0 ∨
          lookupMinScoreAdj cfg mem (forkBoostActive cfg jiffies st) =
            OOM_SCORE_ADJ_MAX + 1
      · rw [if_pos h2]
        intro _; rfl
      · rw [if_neg h2]
        cases hsc : scanLoop
            (lookupMinScoreAdj cfg mem (forkBoostActive cfg jiffies st))
            jiffies st.deathpending_timeout
            (initSel Proc
              (lookupMinScoreAdj cfg mem (forkBoostActive cfg jiffies st)))
            procs with
        | none => simp
        | some sel => simp
  · intro e he
    unfold could_cswap
    by_cases h1 : e.hidden_cgroup_counter ≤ 0 ∧ e.need_to_reclaim ≠ 1
    · rw [if_pos h1]
      exact ⟨rfl, rfl⟩
    · rw [if_neg h1]
      by_cases h2 : e.jiffies < e.prev_jiffy + e.minimum_interval_time
      · rw [if_pos h2]
        exact ⟨rfl, rfl⟩
      · rw [if_neg h2, if_pos (Or.inl he)]
        exact ⟨rfl, rfl⟩

/-- Witness for C10: a completed killing scan (flag was raised) ends with
`lmk_running = 0`. -/
theorem c10_lmk_running_reset_witness :
    (lowmem_shrink cfgDefault memScenario [⟨1, false, false, true, 900, 10⟩]
      200 128 false false ⟨100, 0, 1, 0⟩).state.lmk_running = 0 :=
  (c10_lmk_running_reset cfgDefault memScenario
    [⟨1, false, false, true, 900, 10⟩] 200 128 false false
    ⟨100, 0, 1, 0⟩).1 (by decide)

/-- C7: one pass of the `do_compcache` worker body clears
`need_to_reclaim` (via `cancel_soft_reclaim`) exactly when the pass
reclaimed fewer than `minimun_reclaim_pages` pages, leaves it unchanged
otherwise, and always clears `kcompcached_running` before sleeping. -/
theorem c7_compcache_min_reclaim (zones : List ZoneInput)
    (minimun_reclaim_pages : Nat) (stats : ReclaimStats) (fl : ReclaimFlags) :
    ((do_compcache_pass zones minimun_reclaim_pages stats fl).1 <
        minimun_reclaim_pages →
      (do_compcache_pass zones minimun_reclaim_pages stats
        fl).2.2.need_to_reclaim = 0) ∧
    (minimun_reclaim_pages ≤
        (do_compcache_pass zones minimun_reclaim_pages stats fl).1 →
      (do_compcache_pass zones minimun_reclaim_pages stats
        fl).2.2.need_to_reclaim = fl.need_to_reclaim) ∧
    (do_compcache_pass zones minimun_reclaim_pages stats
      fl).2.2.kcompcached_running = 0 := by
  unfold do_compcache_pass
  by_cases hr : (soft_reclaim zones stats).1 < minimun_reclaim_pages <;>
    simp [hr]

/-- Witness for C7: a pass reclaiming 10 pages against a 512-page minimum
clears the flag. -/
theorem c7_compcache_min_reclaim_witness :
    (do_compcache_pass [⟨true, false, 10, 20⟩] 512 ⟨0, 0, 0, 0⟩
      ⟨1, 1⟩).2.2.need_to_reclaim = 0 :=
  (c7_compcache_min_reclaim [⟨true, false, 10, 20⟩] 512 ⟨0, 0, 0, 0⟩
    ⟨1, 1⟩).1 (by decide)

/-- C8 (spec-modelled): the configuration boundary rejects a malformed
table pair (length mismatch, overlong, or unsorted) and retains the prior
tables unchanged; a valid pair is applied. -/
theorem c8_reconfigure_rejects (cur proposed : LMKTables) :
    (¬tablesValid proposed → reconfigureTables cur proposed = cur) ∧
    (tablesValid proposed → reconfigureTables cur proposed = proposed) :=
  ⟨fun h => by unfold reconfigureTables; rw [if_neg h],
    fun h => by unfold reconfigureTables; rw [if_pos h]⟩

/-- Witness for C8: an unsorted `minfree` list is rejected and the prior
tables retained. -/
theorem c8_reconfigure_rejects_witness :
    reconfigureTables ⟨[0, 1], [1536, 2048]⟩ ⟨[0, 1], [2048, 1536]⟩ =
      ⟨[0, 1], [1536, 2048]⟩ :=
  (c8_reconfigure_rejects ⟨[0, 1], [1536, 2048]⟩ ⟨[0, 1], [2048, 1536]⟩).1
    (by decide)
